import Mathlib

/-!
Verification of the EPUB rebuilder (`epub_rebuilder.py`).

The development shallowly embeds the program's core logic:

* the chapter segmenter `find_chapter_boundaries`, which walks the spine's
  content documents in order and splits them into chapter units on `<h1>`
  boundaries;
* the package-metadata loader `parse_content_opf` and the synchronizer
  `update_content_opf` (manifest and spine rewriting);
* the navigation-document and NCX emitters `update_nav_document` and
  `update_ncx_document`;
* the materializer `create_chapter_files` (its control flow up to file
  creation);
* the `main` pipeline's try/finally resource discipline around `clean_up`.

Content documents are modelled at the granularity the segmenter actually
inspects: a document body is a flat, ordered list of sibling nodes, each node
either an `<h1>` heading (carrying its stripped text and its own markup) or
any other markup fragment (carrying its markup).  This matches the situation
the source's sibling scan addresses: `body.find_all("h1")` enumerating the
headings and `h1.next_siblings` enumerating the nodes after a heading at the
same level.  File-system paths are modelled as lists of components, with
`os.path.join` as list append and `os.path.dirname` as `List.dropLast`.
-/

namespace EpubRebuilder

/-- A node of a content document's body: either an `<h1>` heading (with its
`get_text(strip=True)` title and its `str(h1)` markup) or any other markup
fragment (with its `str(node)` markup). -/
inductive Node where
  | h1 (title : String) (raw : String)
  | frag (raw : String)
deriving DecidableEq, Repr

/-- A content document body: its ordered list of sibling nodes. -/
abbrev Doc := List Node

/-- The markup of a node, `str(node)` in the source. -/
def Node.raw : Node → String
  | .h1 _ r => r
  | .frag r => r

/-- Whether a node is an `<h1>` heading (the `isinstance(sibling, Tag) and
sibling.name == "h1"` test in the source). -/
def Node.isH1 : Node → Bool
  | .h1 _ _ => true
  | .frag _ => false

/-- `body.decode_contents()`: concatenation of the markup of every child. -/
def decodeContents (d : Doc) : String :=
  String.join (d.map Node.raw)

/-- A chapter unit as produced by `find_chapter_boundaries`: the dict
`{"title": ..., "content": ..., "id": ...}`. -/
structure Chapter where
  title : String
  content : String
  id : String
deriving DecidableEq, Repr

/-- The segmenter's running state: the emitted chapters so far, and the open
chapter `(current_title, current_content)` when one exists. -/
abbrev SegState := List Chapter × Option (String × List String)

/-- Closing out the open chapter, appending
`{"title": current_title, "content": "".join(current_content),
"id": f"ch_\x7blen(chapters)\x7d"}` when a chapter is open. -/
def flushChapter (chs : List Chapter) : Option (String × List String) → List Chapter
  | none => chs
  | some (t, cs) => chs ++ [⟨t, String.join cs, "ch_" ++ toString chs.length⟩]

/-- The sibling scan after a heading: `for sibling in h1.next_siblings`,
collecting `str(sibling)` and stopping at the next `<h1>` tag. -/
def siblingRun : Doc → List String
  | [] => []
  | n :: rest => if n.isH1 then [] else n.raw :: siblingRun rest

/-- The loop `for idx, h1 in enumerate(h1_tags)` over a document that contains
at least one heading: each heading first flushes the previously open chapter,
then opens a new one whose content starts with `str(h1)` followed by the
sibling run up to the next heading.  Nodes that are not headings are reached
only through the sibling run of the nearest preceding heading; nodes before
the first heading of such a document are reached by no loop iteration. -/
def procH1s : List Chapter → Option (String × List String) → Doc → SegState
  | chs, cur, [] => (chs, cur)
  | chs, cur, .frag _ :: rest => procH1s chs cur rest
  | chs, cur, .h1 t r :: rest =>
      procH1s (flushChapter chs cur) (some (t, r :: siblingRun rest)) rest

/-- Processing one content document: if `h1_tags` is empty, append the whole
body markup to the open chapter when one exists (else skip the document);
otherwise run the heading loop. -/
def stepDoc (s : SegState) (d : Doc) : SegState :=
  if d.all (fun n => !n.isH1) then
    match s with
    | (chs, none) => (chs, none)
    | (chs, some (t, cs)) => (chs, some (t, cs ++ [decodeContents d]))
  else
    procH1s s.1 s.2 d

/-- The fold of `stepDoc` over the filtered content documents, starting with
no chapters and no open chapter. -/
def segFold (docs : List Doc) : SegState :=
  docs.foldl stepDoc ([], none)

/-- `find_chapter_boundaries`, on the already-filtered list of content
document bodies: fold the per-document step over the spine order, then flush
the final pending chapter. -/
def find_chapter_boundaries (docs : List Doc) : List Chapter :=
  let s := segFold docs
  flushChapter s.1 s.2

/-! ### Instrumented segmenter

`chapterFragments` is the same algorithm with a chapter's content kept as the
list of markup fragments that were appended to it, rather than their
concatenation; `find_chapter_boundaries` is recovered by joining each
fragment list and numbering the chapters (proved below). -/

/-- Fragment-level segmenter state. -/
abbrev FragState := List (String × List String) × Option (String × List String)

/-- Fragment-level flush: the pending `(title, fragments)` pair is appended. -/
def fragFlush (chs : List (String × List String)) :
    Option (String × List String) → List (String × List String)
  | none => chs
  | some p => chs ++ [p]

/-- Fragment-level heading loop, identical to `procH1s` but keeping fragment
lists. -/
def fragProcH1s : List (String × List String) → Option (String × List String) →
    Doc → FragState
  | chs, cur, [] => (chs, cur)
  | chs, cur, .frag _ :: rest => fragProcH1s chs cur rest
  | chs, cur, .h1 t r :: rest =>
      fragProcH1s (fragFlush chs cur) (some (t, r :: siblingRun rest)) rest

/-- Fragment-level per-document step; a heading-free document contributes its
nodes' markup (whose join is `decode_contents`) to the open chapter. -/
def fragStepDoc (s : FragState) (d : Doc) : FragState :=
  if d.all (fun n => !n.isH1) then
    match s with
    | (chs, none) => (chs, none)
    | (chs, some (t, cs)) => (chs, some (t, cs ++ d.map Node.raw))
  else
    fragProcH1s s.1 s.2 d

/-- Fragment-level fold over the documents. -/
def fragFold (docs : List Doc) : FragState :=
  docs.foldl fragStepDoc ([], none)

/-- The emitted chapters with their content as fragment lists. -/
def chapterFragments (docs : List Doc) : List (String × List String) :=
  let s := fragFold docs
  fragFlush s.1 s.2

/-- Numbering and joining fragment-level chapters, starting at index `i`. -/
def renderFrom (i : Nat) : List (String × List String) → List Chapter
  | [] => []
  | p :: rest => ⟨p.1, String.join p.2, "ch_" ++ toString i⟩ :: renderFrom (i + 1) rest

/-! ### Spec-side descriptions of the segmenter's output -/

/-- Whether a document contains an `<h1>` heading. -/
def hasH1 (d : Doc) : Bool := d.any Node.isH1

/-- The number of `<h1>` headings in one document. -/
def countH1 (d : Doc) : Nat := (d.filter Node.isH1).length

/-- The total number of `<h1>` headings across a document list. -/
def docsH1 (docs : List Doc) : Nat := (docs.map countH1).sum

/-- The markup fragments one document contributes to the emitted chapters:
a heading document contributes exactly its nodes from the first heading
onward; a heading-free document contributes its whole body when a chapter is
open (`opened`) and nothing otherwise. -/
def docFrags (opened : Bool) (d : Doc) : List String :=
  if hasH1 d then (d.dropWhile (fun n => !n.isH1)).map Node.raw
  else if opened then d.map Node.raw else []

/-- All markup fragments the chapter sequence receives, in order, threading
the `chapter open` flag (a chapter is open exactly when some earlier document
contained a heading). -/
def flatFragsAux : Bool → List Doc → List String
  | _, [] => []
  | op, d :: rest => docFrags op d ++ flatFragsAux (op || hasH1 d) rest

/-- All markup fragments the chapter sequence receives, starting closed. -/
def flatFrags (docs : List Doc) : List String := flatFragsAux false docs

/-- Fragment-level state: every fragment held by the flushed chapters and the
open chapter, in order. -/
def stFlat (s : FragState) : List String :=
  (s.1.map Prod.snd).flatten ++ (match s.2 with | none => [] | some (_, cs) => cs)

/-- Fragment-level state: flushed chapters plus one for the open chapter. -/
def stCount (s : FragState) : Nat :=
  s.1.length + (match s.2 with | none => 0 | some _ => 1)

/-! ### Package model: manifest, spine, content.opf -/

/-- A manifest `<item>`: identifier, href and media type. -/
structure Item where
  id : String
  href : String
  mediaType : String
deriving DecidableEq, Repr

/-- The content-document media type. -/
def xhtmlType : String := "application/xhtml+xml"

/-- The legacy navigation map media type. -/
def ncxType : String := "application/x-dtbncx+xml"

/-- One assignment `manifest[item_id] = {...}` into a Python dict: an existing
key keeps its position and takes the new value, a new key is appended. -/
def dictInsert (m : List Item) (it : Item) : List Item :=
  if m.any (fun o => o.id == it.id) then
    m.map (fun o => if o.id == it.id then it else o)
  else m ++ [it]

/-- The manifest dict built by `parse_content_opf`: one `dictInsert` per
`<item>` element, in document order. -/
def parseManifest (items : List Item) : List Item := items.foldl dictInsert []

/-- Dict lookup `manifest.get(id)`; `parseManifest` keeps ids unique, so the
first match is the entry. -/
def dictLookup (m : List Item) (i : String) : Option Item :=
  m.find? (fun it => it.id == i)

/-- The spine list built by `parse_content_opf`: itemrefs whose idref is
present in the manifest dict, in order; others are silently dropped. -/
def parseSpine (m : List Item) (raw : List String) : List String :=
  raw.filter (fun r => (dictLookup m r).isSome)

/-- A file-system path, as its list of components; `os.path.join` appends and
`os.path.dirname` is `List.dropLast`. -/
abbrev PathC := List String

/-- The `content_data` record returned by `parse_content_opf`:
`manifestItems`/`spineIdrefs` are the XML elements' children (the mutable
tree), `manifest`/`spine` the parsed dict and reading order. -/
structure ContentData where
  manifestItems : List Item
  spineIdrefs : List String
  manifest : List Item
  spine : List String
  opfDir : PathC
deriving DecidableEq, Repr

/-- `find_content_opf`: resolves the container's `full-path` against the
extraction directory. -/
def find_content_opf (extractDir : PathC) (fullPath : PathC) : PathC :=
  extractDir ++ fullPath

/-- `parse_content_opf`: parse the root metadata document at the given path
(whose manifest element holds `rawItems` and spine element `rawSpine`). -/
def parse_content_opf (contentOpfPath : PathC) (rawItems : List Item)
    (rawSpine : List String) : ContentData :=
  { manifestItems := rawItems
    spineIdrefs := rawSpine
    manifest := parseManifest rawItems
    spine := parseSpine (parseManifest rawItems) rawSpine
    opfDir := contentOpfPath.dropLast }

/-! ### Chapter materializer -/

/-- A chapter-file record as built by `create_chapter_files`. -/
structure ChapterFile where
  id : String
  href : String
  title : String
  path : PathC
deriving DecidableEq, Repr

/-- Python runtime errors the modelled code can raise. -/
inductive PyError where
  | indexError
  | typeError
deriving DecidableEq, Repr

/-- The record appended for one chapter: filename `<id>.xhtml` next to the
root metadata document. -/
def chapterFileOf (opfDir : PathC) (ch : Chapter) : ChapterFile :=
  { id := ch.id
    href := ch.id ++ ".xhtml"
    title := ch.title
    path := opfDir ++ [ch.id ++ ".xhtml"] }

/-- `create_chapter_files`: reads `content_data['spine'][0]` as the head
template (an `IndexError` on an empty spine), resolves it in the manifest
dict (a `None` there makes the subsequent subscript raise `TypeError`), reads
the template file, then emits one chapter file per chapter unit.  The file
writes and old-file removals are file-system effects outside this model; the
returned records are what the metadata synchronizer consumes. -/
def create_chapter_files (chapters : List Chapter) (cd : ContentData)
    (readFile : PathC → String) : Except PyError (List ChapterFile) :=
  match cd.spine with
  | [] => .error .indexError
  | templateId :: _ =>
    match dictLookup cd.manifest templateId with
    | none => .error .typeError
    | some templateItem =>
      let _templateContent := readFile (cd.opfDir ++ [templateItem.href])
      .ok (chapters.map (chapterFileOf cd.opfDir))

/-! ### Metadata synchronizer: manifest and spine (`update_content_opf`) -/

/-- `idref.startswith('ch_')`: the characters `c`, `h`, `_` are a prefix of
the identifier's character sequence. -/
def isCh (s : String) : Bool := "ch_".data.isPrefixOf s.data

/-- Whether a manifest item survives the removal pass: removed iff its id is
neither `nav` nor `ncx`, its href is not `cover.xhtml`, its media type is the
content type, and its id is not a chapter id. -/
def keepManifestItem (it : Item) : Bool :=
  !(!(it.id == "nav" || it.id == "ncx") && !(it.href == "cover.xhtml") &&
    it.mediaType == xhtmlType && !(isCh it.id))

/-- The manifest element after the removal pass. -/
def removeOldManifestItems (items : List Item) : List Item :=
  items.filter keepManifestItem

/-- Updating the first manifest item whose id matches the chapter: its href
and media type are overwritten in place. -/
def updateFirst : List Item → ChapterFile → List Item
  | [], _ => []
  | it :: rest, ch =>
      if it.id == ch.id then
        { it with href := ch.href, mediaType := xhtmlType } :: rest
      else it :: updateFirst rest ch

/-- Adding one chapter to the manifest element: update the existing item with
that id if present, else append a new `<item>`. -/
def addChapterItem (items : List Item) (ch : ChapterFile) : List Item :=
  if items.any (fun it => it.id == ch.id) then updateFirst items ch
  else items ++ [⟨ch.id, ch.href, xhtmlType⟩]

/-- The manifest element after `update_content_opf`: removal pass, then one
`addChapterItem` per chapter file. -/
def updateManifest (items : List Item) (chs : List ChapterFile) : List Item :=
  chs.foldl addChapterItem (removeOldManifestItems items)

/-- Whether a spine idref points at `cover.xhtml`, per the parsed manifest
dict (`False` when the idref is absent from the dict). -/
def isCoverRef (cd : ContentData) (r : String) : Bool :=
  match dictLookup cd.manifest r with
  | some it => it.href == "cover.xhtml"
  | none => false

/-- Whether a spine itemref survives the first removal pass: kept iff its
idref is `nav` or `ncx`, or points at the cover, or is a chapter idref. -/
def keepSpineRef (cd : ContentData) (r : String) : Bool :=
  (r == "nav" || r == "ncx") || isCoverRef cd r || isCh r

/-- One step of the insertion-point scan, on the accumulator
`(insert_position, index)`: a `nav` or cover itemref moves the insertion
position just past itself. -/
def posStep (cd : ContentData) (acc : Nat × Nat) (r : String) : Nat × Nat :=
  if r == "nav" then (acc.2 + 1, acc.2 + 1)
  else if isCoverRef cd r then (acc.2 + 1, acc.2 + 1)
  else (acc.1, acc.2 + 1)

/-- The insertion-point scan: walk the (post-removal) spine in order. -/
def insertPos (cd : ContentData) (spine : List String) : Nat :=
  (spine.foldl (posStep cd) ((0 : Nat), (0 : Nat))).1

/-- Inserting a run of elements at a position (successive `list.insert(pos+i,
x)` calls; Python clamps an out-of-range position to the end, as `take`/`drop`
do). -/
def insertListAt {α : Type} (l : List α) (pos : Nat) (new : List α) : List α :=
  l.take pos ++ new ++ l.drop pos

/-- The spine element after `update_content_opf`: removal pass, removal of
pre-existing chapter itemrefs, then insertion of the new chapter itemrefs at
the computed position. -/
def updateSpine (cd : ContentData) (chs : List ChapterFile) : List String :=
  let s1 := cd.spineIdrefs.filter (keepSpineRef cd)
  let s2 := s1.filter (fun r => !isCh r)
  insertListAt s2 (insertPos cd s2) (chs.map ChapterFile.id)

/-- What `update_content_opf` leaves behind: the updated manifest and spine
elements, and the path the document is written to. -/
structure OpfOut where
  manifestItems : List Item
  spineIdrefs : List String
  writePath : PathC
deriving DecidableEq, Repr

/-- `update_content_opf`: rewrite manifest and spine, then write the tree to
`os.path.join(opf_dir, 'content.opf')`. -/
def update_content_opf (cd : ContentData) (chs : List ChapterFile) : OpfOut :=
  { manifestItems := updateManifest cd.manifestItems chs
    spineIdrefs := updateSpine cd chs
    writePath := cd.opfDir ++ ["content.opf"] }

/-! ### Metadata synchronizer: navigation document and NCX -/

/-- One `<li><a href=...>label</a></li>` entry of the TOC list. -/
structure NavEntry where
  href : String
  label : String
deriving DecidableEq, Repr

/-- The cover item search both updaters use:
`next((item for item in manifest.values() if item['href'] == 'cover.xhtml'),
None)`. -/
def coverItem (m : List Item) : Option Item :=
  m.find? (fun it => it.href == "cover.xhtml")

/-- The entries `update_nav_document` writes into the cleared TOC list: a
`Cover` link when a cover item exists, then one link per chapter file. -/
def navTocEntries (cd : ContentData) (chs : List ChapterFile) : List NavEntry :=
  (match coverItem cd.manifest with
   | some c => [⟨c.href, "Cover"⟩]
   | none => []) ++ chs.map (fun ch => ⟨ch.href, ch.title⟩)

/-- `update_nav_document`: requires idref `nav` in the parsed spine and a
`<nav epub:type="toc">` element in the document (`tocElemPresent`; a missing
`<ol>` is created, so only the nav element gates the update); returns the
written entries, or `none` when the update is skipped with a warning. -/
def update_nav_document (cd : ContentData) (chs : List ChapterFile)
    (tocElemPresent : Bool) : Option (List NavEntry) :=
  if cd.spine.contains "nav" then
    if tocElemPresent then some (navTocEntries cd chs) else none
  else none

/-- One `<navPoint>` of the NCX navigation map. -/
structure NavPoint where
  id : String
  playOrder : Nat
  label : String
  src : String
deriving DecidableEq, Repr

/-- The chapter `<navPoint>`s with play order counting up from `start`. -/
def ncxChapterPoints (start : Nat) (chs : List ChapterFile) : List NavPoint :=
  chs.enum.map (fun p =>
    ⟨"navPoint-" ++ toString (start + p.1), start + p.1, p.2.title, p.2.href⟩)

/-- The navPoints `update_ncx_document` writes into the cleared navigation
map: a `Cover` point at play order 1 when a cover item exists, then one point
per chapter file with incrementing play order. -/
def ncxNavPoints (cd : ContentData) (chs : List ChapterFile) : List NavPoint :=
  match coverItem cd.manifest with
  | some c => ⟨"navPoint-1", 1, "Cover", c.href⟩ :: ncxChapterPoints 2 chs
  | none => ncxChapterPoints 1 chs

/-- `update_ncx_document`: requires a manifest entry with the NCX media type
and a `navMap` element in that document (`navMapPresent`); returns the
written navPoints, or `none` when the update is skipped with a warning. -/
def update_ncx_document (cd : ContentData) (chs : List ChapterFile)
    (navMapPresent : Bool) : Option (List NavPoint) :=
  if (cd.manifest.find? (fun it => it.mediaType == ncxType)).isSome then
    if navMapPresent then some (ncxNavPoints cd chs) else none
  else none

/-! ### The `main` pipeline and the extraction directory's lifetime -/

/-- The pipeline stages inside `main`'s try block, in order.  `makedirs` is
the `os.makedirs(extract_dir)` call at the head of `extract_epub`; `unzip`
the archive extraction that follows it. -/
inductive Stage where
  | makedirs
  | unzip
  | findOpf
  | parseOpf
  | findChapters
  | createFiles
  | updateOpf
  | updateNav
  | updateNcx
  | rebuild
deriving DecidableEq, Repr

/-- The slice of the file system the lifetime claim is about: whether the
temporary extraction directory exists. -/
structure TempFS where
  tempDirExists : Bool
deriving DecidableEq, Repr

/-- The try-block stages in program order. -/
def stageList : List Stage :=
  [.makedirs, .unzip, .findOpf, .parseOpf, .findChapters, .createFiles,
   .updateOpf, .updateNav, .updateNcx, .rebuild]

/-- Effect of one stage on the extraction directory, for a failure oracle
`fail` naming the stages that raise: a successful `makedirs` creates the
directory; every other stage leaves it alone.  The returned flag is whether
the stage raised. -/
def stageEffect (fail : Stage → Bool) (fs : TempFS) : Stage → TempFS × Bool
  | .makedirs => if fail .makedirs then (fs, true) else (⟨true⟩, false)
  | s => (fs, fail s)

/-- Running stages in sequence until the first raise (the try block's
semantics): returns the file system and the raising stage, if any. -/
def runSeq (fail : Stage → Bool) : TempFS → List Stage → TempFS × Option Stage
  | fs, [] => (fs, none)
  | fs, s :: rest =>
      if (stageEffect fail fs s).2 then ((stageEffect fail fs s).1, some s)
      else runSeq fail (stageEffect fail fs s).1 rest

/-- `clean_up`: `shutil.rmtree(extract_dir)` removes the directory when it
exists and raises when it does not. -/
def clean_up (fs : TempFS) : TempFS × Bool :=
  if fs.tempDirExists then (⟨false⟩, false) else (fs, true)

/-- Outcome of one `main` run: final file system, the exception escaping the
try block (if any), and whether the finally-block `clean_up` itself raised. -/
structure RunResult where
  fs : TempFS
  tryError : Option Stage
  cleanupError : Bool
deriving DecidableEq, Repr

/-- `main`: run the try-block stages, then always run `clean_up` in the
finally block. -/
def main (fail : Stage → Bool) : RunResult :=
  let r := runSeq fail ⟨false⟩ stageList
  let c := clean_up r.1
  ⟨c.1, r.2, c.2⟩

/-! ### Digit-string machinery

`find_chapter_boundaries` builds identifiers with an f-string over
`len(chapters)`; distinctness of the identifiers reduces to injectivity of
the decimal rendering of a natural number, proved here from first
principles. -/

/-- The decimal digit list of a natural number (most significant first);
shown below to agree with core's fuelled `Nat.toDigits 10`. -/
def natDigits (n : Nat) : List Char :=
  if n < 10 then [Nat.digitChar n]
  else natDigits (n / 10) ++ [Nat.digitChar (n % 10)]
decreasing_by exact Nat.div_lt_self (by omega) (by omega)

/-- Numeric value of a decimal digit character. -/
def digitVal (c : Char) : Nat := c.toNat - 48

/-- Reading a decimal digit list back into a number. -/
def parseDigits (l : List Char) : Nat :=
  l.foldl (fun acc c => 10 * acc + digitVal c) 0

/-! ### Concrete inputs for counterexamples and witnesses -/

/-- Two spine documents: the second opens with prose before its first
heading. -/
def c1exDocs : List Doc :=
  [[.h1 "A" "<h1>A</h1>", .frag "<p>p1</p>"],
   [.frag "<p>orphan</p>", .h1 "B" "<h1>B</h1>", .frag "<p>p2</p>"]]

/-- A package whose original spine lists the navigation document before the
cover. -/
def c3exCd : ContentData :=
  parse_content_opf ["OEBPS", "content.opf"]
    [⟨"nav", "nav.xhtml", xhtmlType⟩, ⟨"c", "cover.xhtml", xhtmlType⟩]
    ["nav", "c"]

/-- One emitted chapter file. -/
def c3exChs : List ChapterFile :=
  [⟨"ch_0", "ch_0.xhtml", "Intro", ["OEBPS", "ch_0.xhtml"]⟩]

/-- A package whose spine element references `nav` although no manifest item
has that id. -/
def c7exCd : ContentData :=
  parse_content_opf ["OEBPS", "content.opf"]
    [⟨"x", "a.xhtml", xhtmlType⟩]
    ["nav"]

/-- A package with a one-entry manifest and spine, for witnesses. -/
def wExCd : ContentData :=
  parse_content_opf ["OEBPS", "content.opf"]
    [⟨"nav", "nav.xhtml", xhtmlType⟩, ⟨"c", "cover.xhtml", xhtmlType⟩,
     ⟨"n", "toc.ncx", ncxType⟩, ⟨"p1", "part1.xhtml", xhtmlType⟩]
    ["c", "nav", "p1"]

/-- A package whose spine element is nonempty but every idref is absent from
the manifest. -/
def c9exCd : ContentData :=
  parse_content_opf ["OEBPS", "content.opf"]
    [⟨"x", "a.xhtml", xhtmlType⟩]
    ["ghost1", "ghost2"]

/-- A failure oracle making the pipeline raise while parsing the root
metadata document. -/
def c8exFail : Stage → Bool
  | .parseOpf => true
  | _ => false

/-- Correspondence between a joined-content open chapter and a fragment-level
open chapter: same title, and the fragments join to the same string. -/
inductive RelCur : Option (String × List String) → Option (String × List String) → Prop where
  | closed : RelCur none none
  | opened (t : String) (a b : List String) (h : String.join a = String.join b) :
      RelCur (some (t, a)) (some (t, b))

/-! ## Lemmas: string joining -/

lemma join_append (l1 l2 : List String) :
    String.join (l1 ++ l2) = String.join l1 ++ String.join l2 := by
  apply String.ext
  simp [String.data_join]

lemma join_cons (x : String) (l : List String) :
    String.join (x :: l) = x ++ String.join l := by
  apply String.ext
  simp [String.data_join]

lemma join_singleton (x : String) : String.join [x] = x := by
  apply String.ext
  simp [String.data_join]

/-! ## Lemmas: the fragment-level segmenter -/

lemma noH1_eq_not_hasH1 (d : Doc) :
    (d.all fun n => !n.isH1) = !hasH1 d := by
  simp [hasH1, List.all_eq_not_any_not]

lemma siblingRun_eq_takeWhile (d : Doc) :
    siblingRun d = (d.takeWhile fun n => !n.isH1).map Node.raw := by
  induction d with
  | nil => rfl
  | cons n rest ih =>
    cases hn : n.isH1 <;> simp [siblingRun, List.takeWhile_cons, hn, ih]

lemma stFlat_fragFlush (chs : List (String × List String))
    (cur : Option (String × List String)) (p : String × List String) :
    stFlat (fragFlush chs cur, some p) = stFlat (chs, cur) ++ p.2 := by
  cases cur with
  | none => simp [stFlat, fragFlush]
  | some q => simp [stFlat, fragFlush, List.append_assoc]

lemma stFlat_fragProcH1s (d : Doc) (chs : List (String × List String))
    (cur : Option (String × List String)) :
    stFlat (fragProcH1s chs cur d)
      = stFlat (chs, cur) ++ (d.dropWhile fun n => !n.isH1).map Node.raw := by
  induction d generalizing chs cur with
  | nil => simp [fragProcH1s, stFlat]
  | cons n rest ih =>
    cases n with
    | frag r => simpa [fragProcH1s, List.dropWhile_cons, Node.isH1] using ih chs cur
    | h1 t r =>
      have hdw : List.dropWhile (fun n : Node => !n.isH1) (Node.h1 t r :: rest)
          = Node.h1 t r :: rest := by
        rw [List.dropWhile_cons]
        simp [Node.isH1]
      have hmaps : List.map Node.raw (List.takeWhile (fun n => !n.isH1) rest)
            ++ List.map Node.raw (List.dropWhile (fun n => !n.isH1) rest)
          = List.map Node.raw rest := by
        rw [← List.map_append, List.takeWhile_append_dropWhile]
      rw [fragProcH1s, ih, stFlat_fragFlush, hdw, siblingRun_eq_takeWhile,
        List.append_assoc, List.map_cons, List.cons_append, hmaps]
      rfl

lemma isSome_fragProcH1s (d : Doc) (chs : List (String × List String))
    (cur : Option (String × List String)) :
    (fragProcH1s chs cur d).2.isSome = (cur.isSome || hasH1 d) := by
  induction d generalizing chs cur with
  | nil => simp [fragProcH1s, hasH1]
  | cons n rest ih =>
    cases n with
    | frag r => simp [fragProcH1s, hasH1, Node.isH1, ih]
    | h1 t r => simp [fragProcH1s, hasH1, Node.isH1, ih]

lemma stCount_fragFlush (chs : List (String × List String))
    (cur : Option (String × List String)) (p : String × List String) :
    stCount (fragFlush chs cur, some p) = stCount (chs, cur) + 1 := by
  cases cur <;> simp [stCount, fragFlush]

lemma stCount_fragProcH1s (d : Doc) (chs : List (String × List String))
    (cur : Option (String × List String)) :
    stCount (fragProcH1s chs cur d) = stCount (chs, cur) + countH1 d := by
  induction d generalizing chs cur with
  | nil => simp [fragProcH1s, countH1]
  | cons n rest ih =>
    cases n with
    | frag r =>
      rw [fragProcH1s, ih]
      simp [countH1, Node.isH1]
    | h1 t r =>
      rw [fragProcH1s, ih, stCount_fragFlush]
      simp [countH1, Node.isH1]
      omega

lemma countH1_eq_zero_of_noH1 (d : Doc) (h : (d.all fun n => !n.isH1) = true) :
    countH1 d = 0 := by
  simp only [countH1, List.length_eq_zero, List.filter_eq_nil_iff]
  intro n hn
  have := List.all_eq_true.mp h n hn
  simpa using this

lemma hasH1_false_of_all (d : Doc) (h : (d.all fun n => !n.isH1) = true) :
    hasH1 d = false := by
  have h2 := noH1_eq_not_hasH1 d
  rw [h] at h2
  cases hH : hasH1 d
  · rfl
  · rw [hH] at h2; simp at h2

lemma hasH1_true_of_not_all (d : Doc) (h : ¬(d.all fun n => !n.isH1) = true) :
    hasH1 d = true := by
  rw [noH1_eq_not_hasH1] at h
  cases hH : hasH1 d
  · rw [hH] at h; simp at h
  · rfl

lemma stFlat_fragStepDoc (s : FragState) (d : Doc) :
    stFlat (fragStepDoc s d) = stFlat s ++ docFrags s.2.isSome d := by
  by_cases h : (d.all fun n => !n.isH1) = true
  · have hh := hasH1_false_of_all d h
    obtain ⟨chs, cur⟩ := s
    cases cur with
    | none => simp [fragStepDoc, h, docFrags, hh, stFlat]
    | some p =>
      obtain ⟨t, cs⟩ := p
      simp [fragStepDoc, h, docFrags, hh, stFlat, List.append_assoc]
  · have hh := hasH1_true_of_not_all d h
    obtain ⟨chs, cur⟩ := s
    simp only [fragStepDoc]
    rw [if_neg h, stFlat_fragProcH1s]
    simp [docFrags, hh]

lemma isSome_fragStepDoc (s : FragState) (d : Doc) :
    (fragStepDoc s d).2.isSome = (s.2.isSome || hasH1 d) := by
  by_cases h : (d.all fun n => !n.isH1) = true
  · have hh := hasH1_false_of_all d h
    obtain ⟨chs, cur⟩ := s
    cases cur with
    | none => simp [fragStepDoc, h, hh]
    | some p => obtain ⟨t, cs⟩ := p; simp [fragStepDoc, h, hh]
  · obtain ⟨chs, cur⟩ := s
    simp only [fragStepDoc]
    rw [if_neg h]
    exact isSome_fragProcH1s d chs cur

lemma stCount_fragStepDoc (s : FragState) (d : Doc) :
    stCount (fragStepDoc s d) = stCount s + countH1 d := by
  by_cases h : (d.all fun n => !n.isH1) = true
  · rw [countH1_eq_zero_of_noH1 d h]
    obtain ⟨chs, cur⟩ := s
    cases cur with
    | none => simp [fragStepDoc, h]
    | some p => obtain ⟨t, cs⟩ := p; simp [fragStepDoc, h, stCount]
  · obtain ⟨chs, cur⟩ := s
    simp only [fragStepDoc]
    rw [if_neg h]
    exact stCount_fragProcH1s d chs cur

lemma fragFold_go (docs : List Doc) (s : FragState) :
    stFlat (docs.foldl fragStepDoc s) = stFlat s ++ flatFragsAux s.2.isSome docs
    ∧ (docs.foldl fragStepDoc s).2.isSome = (s.2.isSome || docs.any hasH1)
    ∧ stCount (docs.foldl fragStepDoc s) = stCount s + docsH1 docs := by
  induction docs generalizing s with
  | nil => simp [flatFragsAux, docsH1]
  | cons d rest ih =>
    obtain ⟨ih1, ih2, ih3⟩ := ih (fragStepDoc s d)
    refine ⟨?_, ?_, ?_⟩
    · rw [List.foldl_cons, ih1, stFlat_fragStepDoc, isSome_fragStepDoc,
        flatFragsAux, List.append_assoc]
    · rw [List.foldl_cons, ih2, isSome_fragStepDoc]
      simp [Bool.or_assoc]
    · rw [List.foldl_cons, ih3, stCount_fragStepDoc, docsH1]
      simp [docsH1]
      omega

lemma stFlat_of_fragFlush (chs : List (String × List String))
    (cur : Option (String × List String)) :
    ((fragFlush chs cur).map Prod.snd).flatten = stFlat (chs, cur) := by
  cases cur with
  | none => simp [fragFlush, stFlat]
  | some p => simp [fragFlush, stFlat]

lemma length_fragFlush (chs : List (String × List String))
    (cur : Option (String × List String)) :
    (fragFlush chs cur).length = stCount (chs, cur) := by
  cases cur <;> simp [fragFlush, stCount]

lemma chapterFragments_flatten (docs : List Doc) :
    ((chapterFragments docs).map Prod.snd).flatten = flatFrags docs := by
  have h := (fragFold_go docs ([], none)).1
  simp only [chapterFragments, fragFold]
  rw [stFlat_of_fragFlush, Prod.mk.eta, h]
  simp [stFlat, flatFrags]

lemma chapterFragments_length (docs : List Doc) :
    (chapterFragments docs).length = docsH1 docs := by
  have h := (fragFold_go docs ([], none)).2.2
  simp only [chapterFragments, fragFold]
  rw [length_fragFlush, Prod.mk.eta, h]
  simp [stCount]

lemma fragFold_isSome (docs : List Doc) :
    (fragFold docs).2.isSome = docs.any hasH1 := by
  have h := (fragFold_go docs ([], none)).2.1
  rw [fragFold, h]
  simp

/-! ## Lemmas: the real segmenter renders the fragment-level one -/

lemma renderFrom_length (i : Nat) (l : List (String × List String)) :
    (renderFrom i l).length = l.length := by
  induction l generalizing i with
  | nil => rfl
  | cons p rest ih => simp [renderFrom, ih]

lemma renderFrom_append (i : Nat) (l1 l2 : List (String × List String)) :
    renderFrom i (l1 ++ l2) = renderFrom i l1 ++ renderFrom (i + l1.length) l2 := by
  induction l1 generalizing i with
  | nil => simp [renderFrom]
  | cons p rest ih =>
    simp only [List.cons_append, renderFrom, List.length_cons]
    rw [show i + (rest.length + 1) = i + 1 + rest.length by omega]
    exact congrArg (List.cons _) (ih (i + 1))

lemma flushChapter_link (chs : List Chapter) (fchs : List (String × List String))
    (cur fcur : Option (String × List String))
    (hc : chs = renderFrom 0 fchs) (hcur : RelCur cur fcur) :
    flushChapter chs cur = renderFrom 0 (fragFlush fchs fcur) := by
  cases hcur with
  | closed => simpa [flushChapter, fragFlush] using hc
  | opened t a b hab =>
    subst hc
    rw [flushChapter, fragFlush, renderFrom_append, renderFrom, renderFrom,
      renderFrom_length, hab, Nat.zero_add]

lemma procH1s_link (d : Doc) (chs : List Chapter)
    (fchs : List (String × List String)) (cur fcur : Option (String × List String))
    (hc : chs = renderFrom 0 fchs) (hcur : RelCur cur fcur) :
    (procH1s chs cur d).1 = renderFrom 0 (fragProcH1s fchs fcur d).1
    ∧ RelCur (procH1s chs cur d).2 (fragProcH1s fchs fcur d).2 := by
  induction d generalizing chs fchs cur fcur with
  | nil => exact ⟨hc, hcur⟩
  | cons n rest ih =>
    cases n with
    | frag r => exact ih chs fchs cur fcur hc hcur
    | h1 t r =>
      exact ih (flushChapter chs cur) (fragFlush fchs fcur) _ _
        (flushChapter_link chs fchs cur fcur hc hcur)
        (RelCur.opened t (r :: siblingRun rest) (r :: siblingRun rest) rfl)

lemma stepDoc_link (d : Doc) (s : SegState) (fs : FragState)
    (hc : s.1 = renderFrom 0 fs.1) (hcur : RelCur s.2 fs.2) :
    (stepDoc s d).1 = renderFrom 0 (fragStepDoc fs d).1
    ∧ RelCur (stepDoc s d).2 (fragStepDoc fs d).2 := by
  obtain ⟨chs, cur⟩ := s
  obtain ⟨fchs, fcur⟩ := fs
  by_cases h : (d.all fun n => !n.isH1) = true
  · cases hcur with
    | closed => simpa [stepDoc, fragStepDoc, h] using ⟨hc, RelCur.closed⟩
    | opened t a b hab =>
      refine ⟨by simpa [stepDoc, fragStepDoc, h] using hc, ?_⟩
      simp only [stepDoc, fragStepDoc, h, if_true]
      exact RelCur.opened t _ _ (by
        rw [join_append, join_singleton, hab, decodeContents, ← join_append])
  · simp only [stepDoc, fragStepDoc]
    rw [if_neg h, if_neg h]
    exact procH1s_link d chs fchs cur fcur hc hcur

lemma segFold_link (docs : List Doc) :
    (segFold docs).1 = renderFrom 0 (fragFold docs).1
    ∧ RelCur (segFold docs).2 (fragFold docs).2 := by
  rw [segFold, fragFold]
  generalize hs : (([], none) : SegState) = s0
  generalize hfs : (([], none) : FragState) = fs0
  have h0 : s0.1 = renderFrom 0 fs0.1 ∧ RelCur s0.2 fs0.2 := by
    rw [← hs, ← hfs]; exact ⟨rfl, RelCur.closed⟩
  clear hs hfs
  induction docs generalizing s0 fs0 with
  | nil => exact h0
  | cons d rest ih =>
    exact ih (stepDoc s0 d) (fragStepDoc fs0 d)
      (stepDoc_link d s0 fs0 h0.1 h0.2)

lemma find_eq_render (docs : List Doc) :
    find_chapter_boundaries docs = renderFrom 0 (chapterFragments docs) := by
  have h := segFold_link docs
  simp only [find_chapter_boundaries, chapterFragments]
  exact flushChapter_link _ _ _ _ h.1 h.2

/-! ## Lemmas: counting, content and identifiers of the emitted chapters -/

lemma renderFrom_map_content (i : Nat) (l : List (String × List String)) :
    (renderFrom i l).map Chapter.content = l.map (fun p => String.join p.2) := by
  induction l generalizing i with
  | nil => rfl
  | cons p rest ih => simp [renderFrom, ih]

lemma renderFrom_map_id (i : Nat) (l : List (String × List String)) :
    (renderFrom i l).map Chapter.id
      = (List.range' i l.length).map (fun k => "ch_" ++ toString k) := by
  induction l generalizing i with
  | nil => rfl
  | cons p rest ih => simp [renderFrom, ih, List.range'_succ]

lemma find_length (docs : List Doc) :
    (find_chapter_boundaries docs).length = docsH1 docs := by
  rw [find_eq_render, renderFrom_length, chapterFragments_length]

lemma find_map_content (docs : List Doc) :
    (find_chapter_boundaries docs).map Chapter.content
      = (chapterFragments docs).map (fun p => String.join p.2) := by
  rw [find_eq_render, renderFrom_map_content]

lemma docFrags_sublist (op : Bool) (d : Doc) :
    (docFrags op d).Sublist (d.map Node.raw) := by
  rw [docFrags]
  by_cases h : hasH1 d = true
  · rw [if_pos h]
    exact (List.dropWhile_sublist _).map Node.raw
  · rw [if_neg h]
    cases op
    · simp
    · simp

lemma flatFragsAux_sublist (op : Bool) (docs : List Doc) :
    (flatFragsAux op docs).Sublist ((docs.map (fun d => d.map Node.raw)).flatten) := by
  induction docs generalizing op with
  | nil => simp [flatFragsAux]
  | cons d rest ih =>
    rw [flatFragsAux, List.map_cons, List.flatten_cons]
    exact (docFrags_sublist op d).append (ih (op || hasH1 d))

lemma flatFrags_sublist (docs : List Doc) :
    (flatFrags docs).Sublist ((docs.map (fun d => d.map Node.raw)).flatten) :=
  flatFragsAux_sublist false docs

/-! ## Lemmas: computing the segmenter on structured documents -/

lemma all_not_h1_false (d : Doc) (t r : String) (h : Node.h1 t r ∈ d) :
    (d.all fun n => !n.isH1) = false := by
  cases hall : d.all (fun n => !n.isH1)
  · rfl
  · have := List.all_eq_true.mp hall _ h
    simp [Node.isH1] at this

lemma procH1s_skip_frags (l rest : Doc) (hl : (l.all fun n => !n.isH1) = true)
    (chs : List Chapter) (cur : Option (String × List String)) :
    procH1s chs cur (l ++ rest) = procH1s chs cur rest := by
  induction l with
  | nil => rfl
  | cons n l2 ih =>
    cases n with
    | h1 t r => simp [Node.isH1] at hl
    | frag r =>
      rw [List.cons_append, procH1s]
      exact ih (by simpa [Node.isH1] using hl)

lemma siblingRun_all_frags (l : Doc) (hl : (l.all fun n => !n.isH1) = true) :
    siblingRun l = l.map Node.raw := by
  induction l with
  | nil => rfl
  | cons n l2 ih =>
    cases n with
    | h1 t r => simp [Node.isH1] at hl
    | frag r =>
      rw [siblingRun]
      simp only [Node.isH1, Bool.false_eq_true, if_false, List.map_cons]
      rw [ih (by simpa [Node.isH1] using hl)]

lemma siblingRun_append_h1 (l : Doc) (hl : (l.all fun n => !n.isH1) = true)
    (t r : String) (rest : Doc) :
    siblingRun (l ++ Node.h1 t r :: rest) = l.map Node.raw := by
  induction l with
  | nil => rfl
  | cons n l2 ih =>
    cases n with
    | h1 t2 r2 => simp [Node.isH1] at hl
    | frag r2 =>
      rw [List.cons_append, siblingRun]
      simp only [Node.isH1, Bool.false_eq_true, if_false, List.map_cons]
      rw [ih (by simpa [Node.isH1] using hl)]

/-! ## Lemmas: the segmenter's state across heading-free documents -/

lemma stepDoc_closed_noH1 (chs : List Chapter) (d : Doc)
    (hd : (d.all fun n => !n.isH1) = true) :
    stepDoc (chs, none) d = (chs, none) := by
  simp [stepDoc, hd]

lemma stepDoc_open_noH1 (chs : List Chapter) (t : String) (cs : List String)
    (d : Doc) (hd : (d.all fun n => !n.isH1) = true) :
    stepDoc (chs, some (t, cs)) d = (chs, some (t, cs ++ [decodeContents d])) := by
  simp [stepDoc, hd]

lemma RelCur.isSome_eq {a b : Option (String × List String)} (h : RelCur a b) :
    a.isSome = b.isSome := by
  cases h <;> rfl

lemma segFold_isSome (docs : List Doc) :
    (segFold docs).2.isSome = docs.any hasH1 := by
  rw [← fragFold_isSome]
  exact (segFold_link docs).2.isSome_eq

/-! ## Lemmas: decimal rendering of naturals is injective -/

lemma natDigits_toDigitsCore (fuel : Nat) :
    ∀ (n : Nat) (acc : List Char), n < fuel →
      Nat.toDigitsCore 10 fuel n acc = natDigits n ++ acc := by
  induction fuel with
  | zero => intro n acc h; omega
  | succ fuel ih =>
    intro n acc h
    rw [Nat.toDigitsCore]
    by_cases h10 : n / 10 = 0
    · have hn : n < 10 := (Nat.div_eq_zero_iff (by omega)).mp h10
      simp only [h10, if_true, reduceIte]
      rw [natDigits, if_pos hn, Nat.mod_eq_of_lt hn]
      rfl
    · have hn : ¬ n < 10 := by
        intro hlt
        exact h10 (Nat.div_eq_of_lt hlt)
      have hdiv : n / 10 < fuel := by
        have h1 : n / 10 < n := Nat.div_lt_self (by omega) (by omega)
        omega
      simp only [h10, if_false, reduceIte]
      rw [natDigits, if_neg hn, ih (n / 10) _ hdiv, List.append_assoc]
      rfl

lemma repr_eq_natDigits (n : Nat) : Nat.repr n = (natDigits n).asString := by
  rw [Nat.repr, Nat.toDigits, natDigits_toDigitsCore (n + 1) n [] (by omega),
    List.append_nil]

lemma parseDigits_append_digit (l : List Char) (c : Char) :
    parseDigits (l ++ [c]) = 10 * parseDigits l + digitVal c := by
  simp [parseDigits, List.foldl_append]

lemma digitVal_digitChar (d : Nat) (h : d < 10) :
    digitVal (Nat.digitChar d) = d := by
  interval_cases d <;> rfl

lemma parseDigits_natDigits (n : Nat) : parseDigits (natDigits n) = n := by
  induction n using Nat.strong_induction_on with
  | _ n ih =>
    by_cases h : n < 10
    · rw [natDigits, if_pos h]
      simp [parseDigits, digitVal_digitChar n h]
    · rw [natDigits, if_neg h, parseDigits_append_digit,
        ih (n / 10) (Nat.div_lt_self (by omega) (by omega)),
        digitVal_digitChar (n % 10) (Nat.mod_lt n (by omega))]
      omega

lemma natRepr_injective (a b : Nat) (h : Nat.repr a = Nat.repr b) : a = b := by
  rw [repr_eq_natDigits, repr_eq_natDigits] at h
  have h2 : natDigits a = natDigits b := congrArg String.data h
  have h3 := congrArg parseDigits h2
  rwa [parseDigits_natDigits, parseDigits_natDigits] at h3

lemma chId_injective : Function.Injective (fun k : Nat => "ch_" ++ toString k) := by
  intro a b h
  have h2 := congrArg String.data h
  rw [String.data_append, String.data_append] at h2
  have h3 : (toString a).data = (toString b).data := List.append_cancel_left h2
  exact natRepr_injective a b (String.ext h3)

/-! ## Further segmenter helpers -/

lemma procH1s_all_frags (l : Doc) (hl : (l.all fun n => !n.isH1) = true)
    (chs : List Chapter) (cur : Option (String × List String)) :
    procH1s chs cur l = (chs, cur) := by
  induction l with
  | nil => rfl
  | cons n l2 ih =>
    cases n with
    | h1 t r => simp [Node.isH1] at hl
    | frag r =>
      rw [procH1s]
      exact ih (by simpa [Node.isH1] using hl)

lemma segFold_append (l1 l2 : List Doc) :
    segFold (l1 ++ l2) = List.foldl stepDoc (segFold l1) l2 := by
  rw [segFold, segFold, List.foldl_append]

lemma segFold_all_noH1 (docs : List Doc)
    (h : ∀ d1 ∈ docs, (d1.all fun n => !n.isH1) = true) :
    segFold docs = ([], none) := by
  rw [segFold]
  induction docs with
  | nil => rfl
  | cons d rest ih =>
    rw [List.foldl_cons, stepDoc_closed_noH1 [] d (h d (by simp))]
    exact ih (fun d1 hd1 => h d1 (by simp [hd1]))

/-! ## Claim theorems: the chapter segmenter -/

/-- C1 (amended): for every filtered document list the Segmenter emits exactly
one chapter per `<h1>` heading; each chapter's content is the join of its
fragment list; the concatenation of all chapters' fragments is an
order-preserving selection of the input markup (so no fragment is duplicated
across chapters); and that concatenation is characterized exactly: a
heading document contributes its nodes from its first heading onward, and a
heading-free document contributes its whole body iff an earlier document
contained a heading.  (The original claim's stronger no-loss guarantee fails:
fragments before the first heading of a heading-containing document are
dropped even while a chapter is open — see the counterexample.) -/
theorem c1_segmenter_count_partition (docs : List Doc) :
    (find_chapter_boundaries docs).length = docsH1 docs
    ∧ (find_chapter_boundaries docs).map Chapter.content
        = (chapterFragments docs).map (fun p => String.join p.2)
    ∧ ((chapterFragments docs).map Prod.snd).flatten.Sublist
        ((docs.map (fun d => d.map Node.raw)).flatten)
    ∧ ((chapterFragments docs).map Prod.snd).flatten = flatFrags docs :=
  ⟨find_length docs, find_map_content docs,
   by rw [chapterFragments_flatten]; exact flatFrags_sublist docs,
   chapterFragments_flatten docs⟩

/-- C1, counterexample: two documents with two headings in total; the
fragment `<p>orphan</p>` lies after the first heading's sibling run (it is in
the next document) and before the second heading, yet it appears in no
emitted chapter — neither among the chapters' fragments nor as a substring of
any chapter's content — refuting the claim's "no fragment lying between one
heading's sibling run and the next heading is absent from every chapter". -/
theorem c1_counterexample :
    docsH1 c1exDocs = 2
    ∧ find_chapter_boundaries c1exDocs
        = [⟨"A", "<h1>A</h1><p>p1</p>", "ch_0"⟩,
           ⟨"B", "<h1>B</h1><p>p2</p>", "ch_1"⟩]
    ∧ "<p>orphan</p>" ∈ (c1exDocs.map (fun d => d.map Node.raw)).flatten
    ∧ "<p>orphan</p>" ∉ ((chapterFragments c1exDocs).map Prod.snd).flatten
    ∧ ∀ c ∈ find_chapter_boundaries c1exDocs,
        ¬ ("<p>orphan</p>".data <:+: c.content.data) := by
  refine ⟨by decide, by decide, by decide, by decide, by decide⟩

/-- C2: a single document with exactly two `<h1>` headings produces exactly
two chapters; the first chapter's content is its heading's markup followed by
the markup of the sibling nodes strictly between the two headings, excluding
the second heading and everything after it; the second chapter gets the
second heading and its following siblings. -/
theorem c2_two_headings_split (pre mid post : Doc) (t1 r1 t2 r2 : String)
    (hpre : (pre.all fun n => !n.isH1) = true)
    (hmid : (mid.all fun n => !n.isH1) = true)
    (hpost : (post.all fun n => !n.isH1) = true) :
    find_chapter_boundaries [pre ++ Node.h1 t1 r1 :: (mid ++ Node.h1 t2 r2 :: post)]
      = [⟨t1, r1 ++ String.join (mid.map Node.raw), "ch_0"⟩,
         ⟨t2, r2 ++ String.join (post.map Node.raw), "ch_1"⟩] := by
  have hmem : Node.h1 t1 r1 ∈ pre ++ Node.h1 t1 r1 :: (mid ++ Node.h1 t2 r2 :: post) := by
    simp
  have hall := all_not_h1_false _ t1 r1 hmem
  simp only [find_chapter_boundaries, segFold, List.foldl_cons, List.foldl_nil]
  simp only [stepDoc]
  rw [if_neg (by simp [hall])]
  rw [procH1s_skip_frags pre _ hpre, procH1s,
    siblingRun_append_h1 mid hmid t2 r2 post,
    procH1s_skip_frags mid _ hmid, procH1s,
    siblingRun_all_frags post hpost,
    procH1s_all_frags post hpost]
  simp only [flushChapter, join_cons, List.nil_append, List.singleton_append,
    List.length_cons, List.length_nil]
  rfl

/-- C2, witness at a concrete document. -/
theorem c2_two_headings_split_witness :
    find_chapter_boundaries
        [[Node.frag "<p>x</p>"] ++ Node.h1 "One" "<h1>One</h1>"
          :: ([Node.frag "<p>a</p>"] ++ Node.h1 "Two" "<h1>Two</h1>"
              :: [Node.frag "<p>b</p>"])]
      = [⟨"One", "<h1>One</h1>" ++ String.join ([Node.frag "<p>a</p>"].map Node.raw), "ch_0"⟩,
         ⟨"Two", "<h1>Two</h1>" ++ String.join ([Node.frag "<p>b</p>"].map Node.raw), "ch_1"⟩] :=
  c2_two_headings_split [Node.frag "<p>x</p>"] [Node.frag "<p>a</p>"]
    [Node.frag "<p>b</p>"] "One" "<h1>One</h1>" "Two" "<h1>Two</h1>"
    (by decide) (by decide) (by decide)

/-- C5: the identifiers of the emitted chapter sequence are exactly
`ch_0, ch_1, ...` in emission order, and they are pairwise distinct. -/
theorem c5_chapter_identifiers (docs : List Doc) :
    (find_chapter_boundaries docs).map Chapter.id
      = (List.range (find_chapter_boundaries docs).length).map
          (fun k => "ch_" ++ toString k)
    ∧ ((find_chapter_boundaries docs).map Chapter.id).Nodup := by
  have h1 : (find_chapter_boundaries docs).map Chapter.id
      = (List.range' 0 (chapterFragments docs).length).map
          (fun k => "ch_" ++ toString k) := by
    rw [find_eq_render, renderFrom_map_id]
  constructor
  · rw [h1, List.range_eq_range', find_eq_render, renderFrom_length]
  · rw [h1]
    exact List.Nodup.map chId_injective (List.nodup_range' 0 _)

/-- C6: when the Segmenter reaches a heading-free content document, then if
no chapter is open (no earlier document had a heading) the document
contributes nothing — removing it leaves the output unchanged — and if a
chapter is open the whole body markup of the document is appended to that
open chapter, leaving the already-emitted chapters and the open title
untouched. -/
theorem c6_headingless_document (docs1 docs2 : List Doc) (d : Doc)
    (hd : (d.all fun n => !n.isH1) = true) :
    ((∀ d1 ∈ docs1, (d1.all fun n => !n.isH1) = true) →
        find_chapter_boundaries (docs1 ++ d :: docs2)
          = find_chapter_boundaries (docs1 ++ docs2))
    ∧ (docs1.any hasH1 = true →
        ∃ chs t cs, segFold docs1 = (chs, some (t, cs))
          ∧ segFold (docs1 ++ [d]) = (chs, some (t, cs ++ [decodeContents d]))) := by
  constructor
  · intro hall
    simp only [find_chapter_boundaries]
    rw [segFold_append, segFold_append, segFold_all_noH1 docs1 hall,
      List.foldl_cons, stepDoc_closed_noH1 [] d hd]
  · intro hany
    have hs : (segFold docs1).2.isSome = true := by rw [segFold_isSome, hany]
    rcases hseg : segFold docs1 with ⟨chs, cur⟩
    cases cur with
    | none => rw [hseg] at hs; simp at hs
    | some p =>
      obtain ⟨t, cs⟩ := p
      refine ⟨chs, t, cs, rfl, ?_⟩
      rw [segFold_append, hseg, List.foldl_cons, List.foldl_nil,
        stepDoc_open_noH1 chs t cs d hd]

/-! ## Lemmas: the spine insertion point -/

lemma posStep_snd (cd : ContentData) (l : List String) (p : Nat × Nat) :
    (l.foldl (posStep cd) p).2 = p.2 + l.length := by
  induction l generalizing p with
  | nil => simp
  | cons r rest ih =>
    rw [List.foldl_cons, ih]
    have hs : (posStep cd p r).2 = p.2 + 1 := by
      rw [posStep]; split_ifs <;> rfl
    rw [hs, List.length_cons]
    omega

lemma insertPos_snoc (cd : ContentData) (l : List String) (x : String) :
    insertPos cd (l ++ [x])
      = if (x == "nav") || isCoverRef cd x then l.length + 1 else insertPos cd l := by
  rw [insertPos, List.foldl_append, List.foldl_cons, List.foldl_nil]
  have hs := posStep_snd cd l ((0 : Nat), (0 : Nat))
  rcases hfold : List.foldl (posStep cd) ((0 : Nat), (0 : Nat)) l with ⟨p1, p2⟩
  rw [hfold] at hs
  simp only [] at hs
  by_cases hnav : (x == "nav") = true
  · simp [posStep, hnav, hs]
  · by_cases hcov : isCoverRef cd x = true
    · simp [posStep, hnav, hcov, hs]
    · have hnegs : (posStep cd (p1, p2) x).1 = p1 := by
        rw [posStep, if_neg hnav, if_neg hcov]
      rw [hnegs, if_neg (by simp [hnav, hcov]), insertPos, hfold]

lemma insertPos_le (cd : ContentData) (l : List String) :
    insertPos cd l ≤ l.length := by
  induction l using List.reverseRecOn with
  | nil => exact Nat.le_refl 0
  | append_singleton l x ih =>
    rw [insertPos_snoc, List.length_append]
    by_cases h : ((x == "nav") || isCoverRef cd x) = true
    · rw [if_pos h]; simp
    · rw [if_neg h]; simp; omega

lemma insertPos_drop (cd : ContentData) (l : List String) :
    ∀ r ∈ l.drop (insertPos cd l), ¬(r = "nav") ∧ isCoverRef cd r = false := by
  induction l using List.reverseRecOn with
  | nil => simp
  | append_singleton l x ih =>
    rw [insertPos_snoc]
    by_cases h : ((x == "nav") || isCoverRef cd x) = true
    · rw [if_pos h]
      intro r hr
      rw [List.drop_eq_nil_of_le (by simp)] at hr
      simp at hr
    · rw [if_neg h]
      intro r hr
      rw [List.drop_append_of_le_length (insertPos_le cd l)] at hr
      rcases List.mem_append.mp hr with h1 | h2
      · exact ih r h1
      · have hx : r = x := by simpa using h2
        subst hx
        simp only [Bool.or_eq_true, not_or] at h
        refine ⟨?_, ?_⟩
        · intro hr2
          exact h.1 (by rw [hr2]; rfl)
        · cases hc : isCoverRef cd r
          · rfl
          · exact absurd hc h.2

lemma insertPos_take_last (cd : ContentData) (l : List String) :
    l.take (insertPos cd l) = []
    ∨ ∃ r0, (l.take (insertPos cd l)).getLast? = some r0
        ∧ (r0 = "nav" ∨ isCoverRef cd r0 = true) := by
  induction l using List.reverseRecOn with
  | nil => exact Or.inl rfl
  | append_singleton l x ih =>
    rw [insertPos_snoc]
    by_cases h : ((x == "nav") || isCoverRef cd x) = true
    · rw [if_pos h, List.take_of_length_le (by simp)]
      refine Or.inr ⟨x, List.getLast?_concat l, ?_⟩
      rcases Bool.or_eq_true _ _ |>.mp h with hn | hc
      · exact Or.inl (by simpa using hn)
      · exact Or.inr hc
    · rw [if_neg h, List.take_append_of_le_length (insertPos_le cd l)]
      exact ih

/-! ## Claim theorems: spine synchronization -/

/-- C3 (amended): after `update_content_opf`, the spine consists of the
retained original itemrefs — exactly those with idref `nav` or `ncx` or
pointing at the cover, minus any pre-existing chapter itemrefs — in their
original relative order, with the new chapter itemrefs inserted contiguously
in emission order immediately after the last retained `nav`-or-cover
itemref: the retained prefix before the chapters is empty or ends with a
`nav`-or-cover itemref, no retained itemref after the insertion point is
`nav` or a cover reference, and nothing else survives (these two facts pin
the split uniquely).  (The original claim's fixed layout "cover first, then
nav" fails when the original spine orders them the other way — see the
counterexample.) -/
theorem c3_spine_after_update (cd : ContentData) (chs : List ChapterFile) :
    ∃ pre post : List String,
      updateSpine cd chs = pre ++ chs.map ChapterFile.id ++ post
      ∧ pre ++ post = cd.spineIdrefs.filter (fun r => !isCh r && keepSpineRef cd r)
      ∧ (∀ r ∈ pre ++ post, isCh r = false
          ∧ (r = "nav" ∨ r = "ncx" ∨ isCoverRef cd r = true))
      ∧ (∀ r ∈ post, ¬(r = "nav") ∧ isCoverRef cd r = false)
      ∧ (pre = [] ∨ ∃ r0, pre.getLast? = some r0
          ∧ (r0 = "nav" ∨ isCoverRef cd r0 = true)) := by
  have hs2 : (cd.spineIdrefs.filter (keepSpineRef cd)).filter (fun r => !isCh r)
      = cd.spineIdrefs.filter (fun r => !isCh r && keepSpineRef cd r) :=
    List.filter_filter _ _
  set kept := cd.spineIdrefs.filter (fun r => !isCh r && keepSpineRef cd r) with hkept
  refine ⟨kept.take (insertPos cd kept), kept.drop (insertPos cd kept),
    ?_, ?_, ?_, ?_, ?_⟩
  · simp only [updateSpine, hs2, insertListAt]
  · exact List.take_append_drop _ _
  · intro r hr
    rw [List.take_append_drop] at hr
    rw [hkept, List.mem_filter] at hr
    have hp := hr.2
    simp only [Bool.and_eq_true] at hp
    refine ⟨?_, ?_⟩
    · cases hc : isCh r
      · rfl
      · rw [hc] at hp; simp at hp
    · have hk := hp.2
      rw [keepSpineRef] at hk
      simp only [Bool.or_eq_true] at hk
      rcases hk with (hne | hcov) | hch
      · rcases hne with hn | hn
        · exact Or.inl (by simpa using hn)
        · exact Or.inr (Or.inl (by simpa using hn))
      · exact Or.inr (Or.inr hcov)
      · rw [hch] at hp; simp at hp
  · exact insertPos_drop cd kept
  · exact insertPos_take_last cd kept

/-- C3, counterexample: a package whose original spine lists the navigation
itemref before the cover itemref; both are present, yet the synchronized
spine is `nav, cover, ch_0` and not the claimed `cover, nav, ch_0`. -/
theorem c3_counterexample :
    updateSpine c3exCd c3exChs = ["nav", "c", "ch_0"]
    ∧ isCoverRef c3exCd "c" = true
    ∧ (coverItem c3exCd.manifest).isSome = true
    ∧ updateSpine c3exCd c3exChs ≠ ["c", "nav", "ch_0"] := by
  refine ⟨by decide, by decide, by decide, by decide⟩

/-! ## Lemmas: manifest dict and manifest element updates -/

lemma mem_updateSpine (cd : ContentData) (chs : List ChapterFile) (r : String)
    (h : r ∈ updateSpine cd chs) :
    r ∈ cd.spineIdrefs.filter (fun s => !isCh s && keepSpineRef cd s)
    ∨ r ∈ chs.map ChapterFile.id := by
  simp only [updateSpine, List.filter_filter, insertListAt] at h
  rcases List.mem_append.mp h with h1 | h2
  · rcases List.mem_append.mp h1 with h11 | h12
    · exact Or.inl (List.take_subset _ _ h11)
    · exact Or.inr h12
  · exact Or.inl (List.drop_subset _ _ h2)

lemma dictInsert_mem (m : List Item) (it e : Item) (h : e ∈ dictInsert m it) :
    e ∈ m ∨ e = it := by
  rw [dictInsert] at h
  by_cases hany : (m.any fun o => o.id == it.id) = true
  · rw [if_pos hany] at h
    rcases List.mem_map.mp h with ⟨o, ho, heq⟩
    by_cases hid : (o.id == it.id) = true
    · rw [if_pos hid] at heq
      exact Or.inr heq.symm
    · rw [if_neg hid] at heq
      exact Or.inl (heq ▸ ho)
  · rw [if_neg hany] at h
    rcases List.mem_append.mp h with h1 | h2
    · exact Or.inl h1
    · exact Or.inr (List.mem_singleton.mp h2)

lemma parseManifest_mem (items : List Item) : ∀ e ∈ parseManifest items, e ∈ items := by
  rw [parseManifest]
  suffices h : ∀ (l acc : List Item), (∀ e ∈ acc, e ∈ items) → (∀ e ∈ l, e ∈ items) →
      ∀ e ∈ l.foldl dictInsert acc, e ∈ items by
    exact h items [] (by simp) (fun e he => he)
  intro l
  induction l with
  | nil => intro acc hacc _ e he; exact hacc e he
  | cons it rest ih =>
    intro acc hacc hl e he
    rw [List.foldl_cons] at he
    refine ih (dictInsert acc it) ?_ (fun x hx => hl x (by simp [hx])) e he
    intro x hx
    rcases dictInsert_mem acc it x hx with h1 | h2
    · exact hacc x h1
    · exact h2 ▸ hl it (by simp)

lemma dictLookup_mem (m : List Item) (i : String) (it : Item)
    (h : dictLookup m i = some it) : it ∈ m ∧ it.id = i := by
  refine ⟨List.mem_of_find?_eq_some h, ?_⟩
  have h2 := List.find?_some h
  simpa using h2

lemma keepManifestItem_of (it : Item)
    (h : it.id = "nav" ∨ it.id = "ncx" ∨ it.href = "cover.xhtml") :
    keepManifestItem it = true := by
  rcases h with h | h | h <;> simp [keepManifestItem, h]

lemma updateFirst_id_present (l : List Item) (ch : ChapterFile) (x : String)
    (h : ∃ it ∈ l, it.id = x) : ∃ it2 ∈ updateFirst l ch, it2.id = x := by
  induction l with
  | nil => simp at h
  | cons it rest ih =>
    rw [updateFirst]
    rcases h with ⟨w, hw, hwx⟩
    by_cases hid : (it.id == ch.id) = true
    · rw [if_pos hid]
      rcases List.mem_cons.mp hw with rfl | hwr
      · exact ⟨{ w with href := ch.href, mediaType := xhtmlType }, by simp, hwx⟩
      · exact ⟨w, by simp [hwr], hwx⟩
    · rw [if_neg hid]
      rcases List.mem_cons.mp hw with rfl | hwr
      · exact ⟨w, by simp, hwx⟩
      · rcases ih ⟨w, hwr, hwx⟩ with ⟨w2, hw2, hw2x⟩
        exact ⟨w2, by simp [hw2], hw2x⟩

lemma updateFirst_own (l : List Item) (ch : ChapterFile)
    (h : (l.any fun it => it.id == ch.id) = true) :
    ∃ it ∈ updateFirst l ch, it.id = ch.id := by
  induction l with
  | nil => simp at h
  | cons it rest ih =>
    rw [updateFirst]
    by_cases hid : (it.id == ch.id) = true
    · rw [if_pos hid]
      exact ⟨{ it with href := ch.href, mediaType := xhtmlType }, by simp,
        by simpa using hid⟩
    · rw [if_neg hid]
      have h2 : (rest.any fun it => it.id == ch.id) = true := by
        rcases List.any_eq_true.mp h with ⟨w, hw, hwp⟩
        rcases List.mem_cons.mp hw with rfl | hwr
        · exact absurd hwp hid
        · exact List.any_eq_true.mpr ⟨w, hwr, hwp⟩
      rcases ih h2 with ⟨w, hw, hwx⟩
      exact ⟨w, by simp [hw], hwx⟩

lemma addChapterItem_present (l : List Item) (ch : ChapterFile) (x : String)
    (h : ∃ it ∈ l, it.id = x) : ∃ it ∈ addChapterItem l ch, it.id = x := by
  rw [addChapterItem]
  by_cases hany : (l.any fun it => it.id == ch.id) = true
  · rw [if_pos hany]
    exact updateFirst_id_present l ch x h
  · rw [if_neg hany]
    rcases h with ⟨w, hw, hwx⟩
    exact ⟨w, by simp [hw], hwx⟩

lemma addChapterItem_own (l : List Item) (ch : ChapterFile) :
    ∃ it ∈ addChapterItem l ch, it.id = ch.id := by
  rw [addChapterItem]
  by_cases hany : (l.any fun it => it.id == ch.id) = true
  · rw [if_pos hany]
    exact updateFirst_own l ch hany
  · rw [if_neg hany]
    exact ⟨⟨ch.id, ch.href, xhtmlType⟩, by simp, rfl⟩

lemma foldl_addChapter_present (chs : List ChapterFile) (l : List Item) (x : String)
    (h : ∃ it ∈ l, it.id = x) : ∃ it ∈ chs.foldl addChapterItem l, it.id = x := by
  induction chs generalizing l with
  | nil => exact h
  | cons ch rest ih => exact ih _ (addChapterItem_present l ch x h)

lemma foldl_addChapter_chapters (chs : List ChapterFile) (l : List Item) :
    ∀ ch ∈ chs, ∃ it ∈ chs.foldl addChapterItem l, it.id = ch.id := by
  induction chs generalizing l with
  | nil => simp
  | cons ch0 rest ih =>
    intro ch hch
    rcases List.mem_cons.mp hch with rfl | hr
    · rw [List.foldl_cons]
      exact foldl_addChapter_present rest _ ch.id (addChapterItem_own l ch)
    · rw [List.foldl_cons]
      exact ih _ ch hr

/-! ## Claim theorems: spine-manifest referential integrity -/

/-- C7 (amended): the loader establishes the invariant for the in-memory
model — every idref in the parsed spine resolves in the manifest dict,
because unresolvable itemrefs are silently dropped — and `update_content_opf`
yields a written document in which every spine idref resolves in the written
manifest, provided every idref of the input document's spine element resolved
in its manifest element.  (The original claim's unconditional statement for
the written document fails: the update operates on the raw spine element, in
which a `nav` or `ncx` idref is retained even when no manifest item carries
that id — see the counterexample.) -/
theorem c7_spine_resolution (p : PathC) (rawItems : List Item)
    (rawSpine : List String) (chs : List ChapterFile) :
    (∀ r ∈ (parse_content_opf p rawItems rawSpine).spine,
        (dictLookup (parse_content_opf p rawItems rawSpine).manifest r).isSome = true)
    ∧ ((∀ r ∈ rawSpine, ∃ it ∈ rawItems, it.id = r) →
        ∀ r ∈ (update_content_opf (parse_content_opf p rawItems rawSpine) chs).spineIdrefs,
          ∃ it ∈ (update_content_opf (parse_content_opf p rawItems rawSpine) chs).manifestItems,
            it.id = r) := by
  constructor
  · intro r hr
    simp only [parse_content_opf, parseSpine] at hr
    exact (List.mem_filter.mp hr).2
  · intro hres r hr
    simp only [update_content_opf] at hr ⊢
    rcases mem_updateSpine _ chs r hr with hk | hid
    · have hkk := List.mem_filter.mp hk
      have hmem : r ∈ rawSpine := hkk.1
      have hpred := hkk.2
      simp only [Bool.and_eq_true] at hpred
      have hkeep := hpred.2
      rw [keepSpineRef] at hkeep
      simp only [Bool.or_eq_true] at hkeep
      have hsome : ∃ it ∈ rawItems, it.id = r ∧ keepManifestItem it = true := by
        rcases hkeep with (hne | hcov) | hch
        · rcases hne with hn | hn
          · have hr2 : r = "nav" := by simpa using hn
            rcases hres r hmem with ⟨it, hit, hitid⟩
            exact ⟨it, hit, hitid, keepManifestItem_of it (Or.inl (by rw [hitid, hr2]))⟩
          · have hr2 : r = "ncx" := by simpa using hn
            rcases hres r hmem with ⟨it, hit, hitid⟩
            exact ⟨it, hit, hitid,
              keepManifestItem_of it (Or.inr (Or.inl (by rw [hitid, hr2])))⟩
        · rw [isCoverRef] at hcov
          rcases hlk : dictLookup (parse_content_opf p rawItems rawSpine).manifest r
            with _ | it
          · rw [hlk] at hcov
            simp at hcov
          · rw [hlk] at hcov
            simp only [] at hcov
            have hm := dictLookup_mem _ _ _ hlk
            exact ⟨it, parseManifest_mem rawItems it hm.1, hm.2,
              keepManifestItem_of it (Or.inr (Or.inr (beq_iff_eq.mp hcov)))⟩
        · rw [hch] at hpred
          simp at hpred
      rcases hsome with ⟨it, hit, hitid, hitkeep⟩
      have hit2 : it ∈ removeOldManifestItems rawItems :=
        List.mem_filter.mpr ⟨hit, hitkeep⟩
      simp only [updateManifest]
      exact foldl_addChapter_present chs _ r ⟨it, hit2, hitid⟩
    · rcases List.mem_map.mp hid with ⟨ch, hch, rfl⟩
      simp only [updateManifest]
      exact foldl_addChapter_chapters chs _ ch hch

/-- C7, witness: a well-formed package (every raw spine idref resolves) and
one chapter file; both the in-memory invariant and the written document's
invariant are discharged at this input. -/
theorem c7_spine_resolution_witness :
    (∀ r ∈ (parse_content_opf ["OEBPS", "content.opf"]
        [⟨"nav", "nav.xhtml", xhtmlType⟩, ⟨"c", "cover.xhtml", xhtmlType⟩,
         ⟨"n", "toc.ncx", ncxType⟩, ⟨"p1", "part1.xhtml", xhtmlType⟩]
        ["c", "nav", "p1"]).spine,
      (dictLookup (parse_content_opf ["OEBPS", "content.opf"]
        [⟨"nav", "nav.xhtml", xhtmlType⟩, ⟨"c", "cover.xhtml", xhtmlType⟩,
         ⟨"n", "toc.ncx", ncxType⟩, ⟨"p1", "part1.xhtml", xhtmlType⟩]
        ["c", "nav", "p1"]).manifest r).isSome = true)
    ∧ ∀ r ∈ (update_content_opf (parse_content_opf ["OEBPS", "content.opf"]
        [⟨"nav", "nav.xhtml", xhtmlType⟩, ⟨"c", "cover.xhtml", xhtmlType⟩,
         ⟨"n", "toc.ncx", ncxType⟩, ⟨"p1", "part1.xhtml", xhtmlType⟩]
        ["c", "nav", "p1"]) c3exChs).spineIdrefs,
        ∃ it ∈ (update_content_opf (parse_content_opf ["OEBPS", "content.opf"]
          [⟨"nav", "nav.xhtml", xhtmlType⟩, ⟨"c", "cover.xhtml", xhtmlType⟩,
           ⟨"n", "toc.ncx", ncxType⟩, ⟨"p1", "part1.xhtml", xhtmlType⟩]
          ["c", "nav", "p1"]) c3exChs).manifestItems, it.id = r :=
  ⟨(c7_spine_resolution ["OEBPS", "content.opf"]
      [⟨"nav", "nav.xhtml", xhtmlType⟩, ⟨"c", "cover.xhtml", xhtmlType⟩,
       ⟨"n", "toc.ncx", ncxType⟩, ⟨"p1", "part1.xhtml", xhtmlType⟩]
      ["c", "nav", "p1"] c3exChs).1,
   (c7_spine_resolution ["OEBPS", "content.opf"]
      [⟨"nav", "nav.xhtml", xhtmlType⟩, ⟨"c", "cover.xhtml", xhtmlType⟩,
       ⟨"n", "toc.ncx", ncxType⟩, ⟨"p1", "part1.xhtml", xhtmlType⟩]
      ["c", "nav", "p1"] c3exChs).2 (by decide)⟩

/-- C7, counterexample: the spine element references `nav` while the manifest
has no item with that id; the loader drops it from the in-memory spine, but
the written document's spine still carries it and its manifest is empty, so
the written package violates the invariant. -/
theorem c7_counterexample :
    (update_content_opf c7exCd []).spineIdrefs = ["nav"]
    ∧ (update_content_opf c7exCd []).manifestItems = []
    ∧ ¬ (∀ r ∈ (update_content_opf c7exCd []).spineIdrefs,
          ∃ it ∈ (update_content_opf c7exCd []).manifestItems, it.id = r) := by
  refine ⟨by decide, by decide, ?_⟩
  intro h
  rcases h "nav" (by decide) with ⟨it, hit, _⟩
  have : (update_content_opf c7exCd []).manifestItems = [] := by decide
  rw [this] at hit
  simp at hit

/-! ## Lemmas: navigation emissions -/

lemma ncxChapterPoints_src (start : Nat) (chs : List ChapterFile) :
    (ncxChapterPoints start chs).map NavPoint.src = chs.map ChapterFile.href := by
  rw [ncxChapterPoints, List.map_map]
  have hc : (NavPoint.src ∘ fun p : Nat × ChapterFile =>
      NavPoint.mk ("navPoint-" ++ toString (start + p.1)) (start + p.1) p.2.title p.2.href)
      = (ChapterFile.href ∘ Prod.snd) := rfl
  rw [hc, ← List.map_map, List.enum_map_snd]

/-! ## Claim theorems: navigation document and NCX agreement -/

/-- C4: whenever both the navigation-document update and the NCX update are
performed (neither skipped), the href targets written into the TOC list and
the content src targets written into the navigation map are the same ordered
sequence: the cover first when a cover item exists, then one entry per
chapter file in emission order. -/
theorem c4_nav_ncx_targets_agree (cd : ContentData) (chs : List ChapterFile)
    (tocElemPresent navMapPresent : Bool)
    (navOut : List NavEntry) (ncxOut : List NavPoint)
    (h1 : update_nav_document cd chs tocElemPresent = some navOut)
    (h2 : update_ncx_document cd chs navMapPresent = some ncxOut) :
    navOut.map NavEntry.href = ncxOut.map NavPoint.src := by
  have e1 : navOut = navTocEntries cd chs := by
    rw [update_nav_document] at h1
    by_cases ha : cd.spine.contains "nav" = true
    · rw [if_pos ha] at h1
      by_cases hb : tocElemPresent = true
      · rw [if_pos hb] at h1
        exact (Option.some.inj h1).symm
      · rw [if_neg hb] at h1
        exact absurd h1 (by simp)
    · rw [if_neg ha] at h1
      exact absurd h1 (by simp)
  have e2 : ncxOut = ncxNavPoints cd chs := by
    rw [update_ncx_document] at h2
    by_cases ha : (cd.manifest.find? fun it => it.mediaType == ncxType).isSome = true
    · rw [if_pos ha] at h2
      by_cases hb : navMapPresent = true
      · rw [if_pos hb] at h2
        exact (Option.some.inj h2).symm
      · rw [if_neg hb] at h2
        exact absurd h2 (by simp)
    · rw [if_neg ha] at h2
      exact absurd h2 (by simp)
  rw [e1, e2, navTocEntries, ncxNavPoints]
  cases hcov : coverItem cd.manifest with
  | none =>
    simp only [List.nil_append, List.map_map]
    rw [ncxChapterPoints_src]
    rfl
  | some c =>
    simp only [List.singleton_append, List.map_cons, List.map_map]
    rw [ncxChapterPoints_src]
    rfl

/-- C4, witness: a package with a cover, a navigation document in the spine
and an NCX item, with one chapter file; both updates run and emit the same
target sequence. -/
theorem c4_nav_ncx_targets_agree_witness :
    ([⟨"cover.xhtml", "Cover"⟩, ⟨"ch_0.xhtml", "Intro"⟩] : List NavEntry).map NavEntry.href
      = ([⟨"navPoint-1", 1, "Cover", "cover.xhtml"⟩,
          ⟨"navPoint-2", 2, "Intro", "ch_0.xhtml"⟩] : List NavPoint).map NavPoint.src :=
  c4_nav_ncx_targets_agree wExCd c3exChs true true
    [⟨"cover.xhtml", "Cover"⟩, ⟨"ch_0.xhtml", "Intro"⟩]
    [⟨"navPoint-1", 1, "Cover", "cover.xhtml"⟩, ⟨"navPoint-2", 2, "Intro", "ch_0.xhtml"⟩]
    (by decide) (by decide)

/-! ## Lemmas: the extraction directory's lifetime -/

lemma stageEffect_preserves (fail : Stage → Bool) (fs : TempFS) (s : Stage)
    (h : fs.tempDirExists = true) :
    (stageEffect fail fs s).1.tempDirExists = true := by
  cases s
  case makedirs => simp only [stageEffect]; split_ifs <;> simp [h]
  all_goals simp [stageEffect, h]

lemma runSeq_preserves (fail : Stage → Bool) (l : List Stage) (fs : TempFS)
    (h : fs.tempDirExists = true) :
    (runSeq fail fs l).1.tempDirExists = true := by
  induction l generalizing fs with
  | nil => exact h
  | cons s rest ih =>
    rw [runSeq]
    by_cases hr : (stageEffect fail fs s).2 = true
    · rw [if_pos hr]
      exact stageEffect_preserves fail fs s h
    · rw [if_neg hr]
      exact ih _ (stageEffect_preserves fail fs s h)

/-! ## Claim theorems: resource lifetime, materializer precondition, write path -/

/-- C8: on every exit path of a run in which extraction began (the
`makedirs` call at the head of `extract_epub` did not itself raise) — whether
the try block completes or any later stage raises — the finally block's
`clean_up` removes the temporary extraction directory and itself succeeds, so
no run leaves its working tree behind. -/
theorem c8_cleanup_on_all_paths (fail : Stage → Bool) (h : fail .makedirs = false) :
    (main fail).fs.tempDirExists = false ∧ (main fail).cleanupError = false := by
  have h1 : (runSeq fail ⟨false⟩ stageList).1.tempDirExists = true := by
    rw [stageList, runSeq]
    have he : stageEffect fail ⟨false⟩ .makedirs = (⟨true⟩, false) := by
      simp [stageEffect, h]
    rw [he]
    simp only [Bool.false_eq_true, if_false, reduceIte]
    exact runSeq_preserves fail _ ⟨true⟩ rfl
  simp only [main]
  rw [clean_up, if_pos h1]
  exact ⟨rfl, rfl⟩

/-- C8, witness: a run that raises while parsing the root metadata document
still ends with the extraction directory removed. -/
theorem c8_cleanup_on_all_paths_witness :
    (main c8exFail).fs.tempDirExists = false ∧ (main c8exFail).cleanupError = false :=
  c8_cleanup_on_all_paths c8exFail rfl

/-- C9: `create_chapter_files` reads `content_data['spine'][0]`
unconditionally, so any package whose parsed spine list is empty — in
particular one whose spine element is nonempty but every itemref was dropped
because its idref is absent from the manifest — makes the call fail with an
index error, even when the chapter list it was asked to materialize is
empty; a nonempty parsed spine is a precondition. -/
theorem c9_empty_spine_index_error (chapters : List Chapter)
    (readFile : PathC → String) :
    (∀ cd : ContentData, cd.spine = [] →
        create_chapter_files chapters cd readFile = .error .indexError)
    ∧ (∀ (p : PathC) (rawItems : List Item) (rawSpine : List String),
        (∀ r ∈ rawSpine, dictLookup (parseManifest rawItems) r = none) →
          create_chapter_files chapters (parse_content_opf p rawItems rawSpine) readFile
            = .error .indexError) := by
  have hbase : ∀ cd : ContentData, cd.spine = [] →
      create_chapter_files chapters cd readFile = .error .indexError := by
    intro cd h
    simp [create_chapter_files, h]
  refine ⟨hbase, ?_⟩
  intro p rawItems rawSpine h
  apply hbase
  simp only [parse_content_opf, parseSpine]
  rw [List.filter_eq_nil_iff]
  intro r hr
  rw [h r hr]
  simp

/-- C9, witness: a spine element with two unresolvable idrefs parses to an
empty spine list and the materializer fails with an index error on an empty
chapter list. -/
theorem c9_empty_spine_index_error_witness :
    create_chapter_files [] c9exCd (fun _ => "") = .error .indexError :=
  (c9_empty_spine_index_error [] (fun _ => "")).1 c9exCd (by decide)

/-- C10: `update_content_opf` writes the updated root metadata document to
the fixed name `content.opf` in the root document's directory, whatever the
container-resolved root document was called; when the root document's own
filename is not `content.opf`, the written path differs from the root
document's path (the original file is not the write target) and lies in the
same directory. -/
theorem c10_opf_write_path (rawItems : List Item) (rawSpine : List String)
    (chs : List ChapterFile) (extractDir dir0 : PathC) (base : String)
    (h : base ≠ "content.opf") :
    (update_content_opf (parse_content_opf
        (find_content_opf extractDir (dir0 ++ [base])) rawItems rawSpine) chs).writePath
      = (extractDir ++ dir0) ++ ["content.opf"]
    ∧ (update_content_opf (parse_content_opf
        (find_content_opf extractDir (dir0 ++ [base])) rawItems rawSpine) chs).writePath
      ≠ find_content_opf extractDir (dir0 ++ [base]) := by
  have hdrop : (find_content_opf extractDir (dir0 ++ [base])).dropLast
      = extractDir ++ dir0 := by
    rw [find_content_opf, ← List.append_assoc, List.dropLast_concat]
  have hw : (update_content_opf (parse_content_opf
      (find_content_opf extractDir (dir0 ++ [base])) rawItems rawSpine) chs).writePath
      = (extractDir ++ dir0) ++ ["content.opf"] := by
    simp only [update_content_opf, parse_content_opf]
    rw [hdrop]
  refine ⟨hw, ?_⟩
  rw [hw, find_content_opf, ← List.append_assoc]
  intro heq
  have h2 := List.append_cancel_left heq
  have h3 : "content.opf" = base := by simpa using h2
  exact h h3.symm

/-- C10, witness: a root document named `package.opf` in `EPUB/` under the
extraction directory. -/
theorem c10_opf_write_path_witness :
    (update_content_opf (parse_content_opf
        (find_content_opf ["tmp_epub"] (["EPUB"] ++ ["package.opf"])) [] []) []).writePath
      = (["tmp_epub"] ++ ["EPUB"]) ++ ["content.opf"]
    ∧ (update_content_opf (parse_content_opf
        (find_content_opf ["tmp_epub"] (["EPUB"] ++ ["package.opf"])) [] []) []).writePath
      ≠ find_content_opf ["tmp_epub"] (["EPUB"] ++ ["package.opf"]) :=
  c10_opf_write_path [] [] [] ["tmp_epub"] ["EPUB"] "package.opf" (by decide)

/-- C6, witness: one heading document, then a heading-free document. -/
theorem c6_headingless_document_witness :
    ((∀ d1 ∈ [[Node.h1 "One" "<h1>One</h1>"]],
        (d1.all fun n => !n.isH1) = true) →
      find_chapter_boundaries ([[Node.h1 "One" "<h1>One</h1>"]] ++ [Node.frag "<p>y</p>"] :: [])
        = find_chapter_boundaries ([[Node.h1 "One" "<h1>One</h1>"]] ++ []))
    ∧ (([[Node.h1 "One" "<h1>One</h1>"]] : List Doc).any hasH1 = true →
        ∃ chs t cs, segFold [[Node.h1 "One" "<h1>One</h1>"]] = (chs, some (t, cs))
          ∧ segFold ([[Node.h1 "One" "<h1>One</h1>"]] ++ [[Node.frag "<p>y</p>"]])
              = (chs, some (t, cs ++ [decodeContents [Node.frag "<p>y</p>"]]))) :=
  c6_headingless_document [[Node.h1 "One" "<h1>One</h1>"]] []
    [Node.frag "<p>y</p>"] (by decide)

end EpubRebuilder
